import Mathlib

/-!
Verification of the local-disk (os) backend of the vfs library.

The development shallowly embeds `src/backend/os/file.go`.  Stateful code is
modelled by explicit state passing over a `World` record that holds the
objects present on disk together with the failure behaviour of each OS
primitive (stat / remove / mkdir / open / close); every operation additionally
returns the trace of primitive backend calls it issued, as a list of `Event`s.
Paths and names are lists of characters; file contents are lists of bytes
(natural numbers).

Go's `path.Clean` / `path.Join` (used by `File.Path` and `copyWithName`) are
embedded from the Go standard library algorithm, written structurally (the
segment-copying inner loop of `Clean` becomes a boolean "inside a segment"
mode) so that all definitions compute by `decide`.

Pieces of the repository that are not part of the source tree (the `utils`
package, the os `Location`/`FileSystem` implementation files) are modelled
from the specification; each such definition says so in its doc comment.
-/

deriving instance DecidableEq for Except

namespace Os

/-- Go `error` value, identified by its message. -/
structure GoErr where
  msg : String
deriving DecidableEq, Repr

/-- Trace events: one per primitive OS / backend call issued by an operation.
`nativeCopy` is the server-side copy primitive of the copy/move fast path; the
local-disk adapter never emits it. -/
inductive Event
  | stat (p : List Char)
  | mkdirAll (d : List Char)
  | openfile (p : List Char)
  | write (p : List Char) (bs : List Nat)
  | closeHandle (p : List Char)
  | remove (p : List Char)
  | nativeCopy (src dst : List Char)
deriving DecidableEq, Repr

/-- True exactly on `Event.remove`. -/
def Event.isRemove : Event → Bool
  | .remove _ => true
  | _ => false

/-- True exactly on `Event.nativeCopy`. -/
def Event.isNativeCopy : Event → Bool
  | .nativeCopy _ _ => true
  | _ => false

/-- True exactly on `Event.write`. -/
def Event.isWrite : Event → Bool
  | .write _ _ => true
  | _ => false

/-- Association-list lookup keyed by paths. -/
def lookupP {β : Type} (k : List Char) : List (List Char × β) → Option β
  | [] => none
  | (k', v) :: rest => if k = k' then some v else lookupP k rest

/-- Remove every binding of a key from an association list. -/
def removeP {β : Type} (k : List Char) : List (List Char × β) → List (List Char × β)
  | [] => []
  | (k', v) :: rest => if k = k' then removeP k rest else (k', v) :: removeP k rest

/-- Set the binding of a key in an association list. -/
def setP {β : Type} (k : List Char) (v : β) : List (List Char × β) → List (List Char × β)
  | [] => [(k, v)]
  | (k', v') :: rest => if k = k' then (k, v) :: rest else (k', v') :: setP k v rest

/-- The state of the local filesystem together with the (demonically chosen)
failure behaviour of each OS primitive: a path listed in one of the failure
maps makes the corresponding primitive return that error. -/
structure World where
  objects : List (List Char × List Nat)
  statFail : List (List Char × GoErr)
  removeFail : List (List Char × GoErr)
  mkdirFail : List (List Char × GoErr)
  openFail : List (List Char × GoErr)
  closeErrOf : List (List Char × GoErr)
deriving DecidableEq, Repr

/-- An open `*os.File` handle: the path it addresses, its current offset, and
the (predetermined) outcome of closing it. -/
structure Handle where
  hpath : List Char
  offset : Nat
  closeErr : Option GoErr
deriving DecidableEq, Repr

/-- Embeds the os `Location` struct (`Location{fileSystem, name}`): `name` is
the normalized absolute directory path, always ending in a separator.  The
`fileSystem` reference carries no state for the local-disk backend. -/
structure FileSystem where
  unit : Unit := ()
deriving DecidableEq, Repr

structure Location where
  fileSystem : FileSystem := {}
  name : List Char
deriving DecidableEq, Repr

/-- Embeds the os `File` struct (src/backend/os/file.go lines 15-19):
`file` is the lazily opened `*os.File` handle, `name` the base name,
`location` the owning directory. -/
structure File where
  file : Option Handle
  name : List Char
  location : Location
deriving DecidableEq, Repr

/-! ### Go `path.Clean` and `path.Join`

Embedded from the Go standard library (`path/path.go`); on Unix,
`path/filepath.Join`/`Clean` coincide with these on slash-separated paths.
The buffer of `Clean` is kept in reversed order (`outRev`), and the inner
loop that copies one segment is expressed as a boolean `inSeg` mode so the
whole function is structurally recursive on the input. -/

/-- Backtracking step of `Clean` for a `..` element: with the buffer held in
reverse, drop the last element of the buffer and then keep dropping while the
kept length stays above `dotdot` and no separator is reached (the separator
found is dropped as well). -/
def btRev : List Char → Nat → List Char
  | [], _ => []
  | c :: rest, dotdot => if dotdot < rest.length ∧ c ≠ '/' then btRev rest dotdot else rest

/-- Main loop of Go `path.Clean`.  `inSeg = true` is the inner loop copying a
segment's characters; `outRev` is the output buffer in reverse; `dotdot` is
the index up to which `..` may not backtrack. -/
def cleanCore (rooted : Bool) : Bool → List Char → List Char → Nat → List Char
  | _, [], outRev, _ => outRev
  | true, c :: rest, outRev, dotdot =>
      if c = '/' then cleanCore rooted false rest outRev dotdot
      else cleanCore rooted true rest (c :: outRev) dotdot
  | false, c :: rest, outRev, dotdot =>
      if c = '/' then cleanCore rooted false rest outRev dotdot
      else if c = '.' ∧ (rest = [] ∨ rest.head? = some '/') then
        cleanCore rooted false rest outRev dotdot
      else if c = '.' ∧ rest.head? = some '.' ∧ (rest.tail = [] ∨ rest.tail.head? = some '/') then
        match rest with
        | [] => outRev
        | _ :: rest2 =>
          if dotdot < outRev.length then cleanCore rooted false rest2 (btRev outRev dotdot) dotdot
          else if !rooted then
            let out1 := if 0 < outRev.length then '/' :: outRev else outRev
            cleanCore rooted false rest2 ('.' :: '.' :: out1) ('.' :: '.' :: out1).length
          else cleanCore rooted false rest2 outRev dotdot
      else
        let out1 :=
          if rooted then (if outRev.length ≠ 1 then '/' :: outRev else outRev)
          else (if outRev.length ≠ 0 then '/' :: outRev else outRev)
        cleanCore rooted true rest (c :: out1) dotdot

/-- Go `path.Clean`. -/
def goClean (p : List Char) : List Char :=
  match p with
  | [] => ['.']
  | c :: _ =>
    let outRev :=
      if c = '/' then cleanCore true false p ['/'] 1
      else cleanCore false false p [] 0
    if outRev = [] then ['.'] else outRev.reverse

/-- Go `path.Join` restricted to two elements: empty elements are skipped, the
rest are joined with a separator and the result is cleaned. -/
def goJoin (a b : List Char) : List Char :=
  if a ≠ [] then goClean (a ++ '/' :: b)
  else if b ≠ [] then goClean b
  else []

/-! ### Spec-modelled collaborators

The os backend's `Location`/`FileSystem` implementation files and the `utils`
package are not part of the source tree; only `file.go` is.  The definitions
below are modelled from the specification. -/

/-- Modelled from the spec: `FileSystem.Scheme` (the os filesystem
implementation file is not under src/) — the constant scheme tag of the
local-disk backend. -/
def FileSystem.Scheme (_fs : FileSystem) : List Char := "file".data

/-- Modelled from the spec: `Location.Path` (the os location implementation
file is not under src/) returns the stored normalized absolute directory
path, always ending in a separator. -/
def Location.Path (l : Location) : List Char := l.name

/-- Modelled from the spec: `Location.Volume` (the os location implementation
file is not under src/) — the local-disk backend has no volume concept. -/
def Location.Volume (_l : Location) : List Char := []

/-- Modelled from the spec: `FileSystem.NewFile` (the os filesystem
implementation file is not under src/) fails with `InvalidArgument` if the
path is empty, not absolute, or denotes a directory (trailing slash); the
local-disk backend ignores the volume.  On success it is a pure factory for
the File addressed by the path: base name plus enclosing directory. -/
def fsNewFile (_volume : List Char) (p : List Char) : Except GoErr File :=
  if p = [] ∨ p.head? ≠ some '/' ∨ p.getLast? = some '/' then
    .error { msg := "invalid argument" }
  else
    let base := (p.reverse.takeWhile (fun c => c ≠ '/')).reverse
    let dir := (p.reverse.dropWhile (fun c => c ≠ '/')).reverse
    .ok { file := none, name := base, location := { name := dir } }

/-! ### The os `File` operations (src/backend/os/file.go) -/

/-- Embeds `File.Name` (src lines 57-60). -/
def File.Name (f : File) : List Char := f.name

/-- Embeds `File.Path` (src lines 62-65):
`filepath.Join(f.location.Path(), f.name)`. -/
def File.Path (f : File) : List Char := goJoin (Location.Path f.location) f.name

/-- Outcome of `os.Stat` on a path: a recorded non-not-exist failure takes
priority, otherwise the object's contents if present, otherwise not-exists. -/
inductive StatOutcome
  | ok (contents : List Nat)
  | notExist
  | err (e : GoErr)
deriving DecidableEq, Repr

def World.stat (w : World) (p : List Char) : StatOutcome :=
  match lookupP p w.statFail with
  | some e => .err e
  | none =>
    match lookupP p w.objects with
    | some bs => .ok bs
    | none => .notExist

/-- Embeds `File.Exists` (src lines 119-132): `os.Stat`; an `IsNotExist`
error is translated to `(false, nil)`, any other error is propagated as
`(false, err)`, success yields `(true, nil)`. -/
def File.Exists (w : World) (f : File) : Bool × Option GoErr × List Event :=
  match w.stat (File.Path f) with
  | .err e => (false, some e, [.stat (File.Path f)])
  | .notExist => (false, none, [.stat (File.Path f)])
  | .ok _ => (true, none, [.stat (File.Path f)])

/-- Embeds `File.Close` (src lines 77-89): nil handle is a no-op returning
nil; otherwise the handle is closed, and the slot is cleared only when that
close call returned nil. -/
def File.Close (f : File) : File × Option GoErr × List Event :=
  match f.file with
  | none => (f, none, [])
  | some h =>
    match h.closeErr with
    | none => ({ f with file := none }, none, [.closeHandle h.hpath])
    | some e => (f, some e, [.closeHandle h.hpath])

/-- Embeds `openFile` (src lines 218-232): return the cached handle if any;
otherwise `os.MkdirAll` on the location path, then
`os.OpenFile(path, O_RDWR|O_CREATE, 0666)`, which creates an empty object if
the path does not exist; the handle (nil on error) is stored in `f.file`. -/
def File.openFile (w : World) (f : File) : World × File × Except GoErr Handle × List Event :=
  match f.file with
  | some h => (w, f, .ok h, [])
  | none =>
    match lookupP (Location.Path f.location) w.mkdirFail with
    | some e => (w, f, .error e, [.mkdirAll (Location.Path f.location)])
    | none =>
      match lookupP (File.Path f) w.openFail with
      | some e =>
        (w, { f with file := none }, .error e,
          [.mkdirAll (Location.Path f.location), .openfile (File.Path f)])
      | none =>
        let w' :=
          match lookupP (File.Path f) w.objects with
          | some _ => w
          | none => { w with objects := setP (File.Path f) [] w.objects }
        let h : Handle :=
          { hpath := File.Path f, offset := 0, closeErr := lookupP (File.Path f) w.closeErrOf }
        (w', { f with file := some h }, .ok h,
          [.mkdirAll (Location.Path f.location), .openfile (File.Path f)])

/-- Embeds `File.Read` (src lines 91-105): `Exists` is consulted first — an
error is propagated, a missing file is a read error (and nothing is created);
only then is the lazy handle opened and bytes read from the current offset. -/
def File.Read (w : World) (f : File) (cap : Nat) :
    World × File × Except GoErr (List Nat) × List Event :=
  match File.Exists w f with
  | (_, some e, ev) => (w, f, .error e, ev)
  | (false, none, ev) => (w, f, .error { msg := "failed to read. File does not exist" }, ev)
  | (true, none, ev) =>
    match File.openFile w f with
    | (w1, f1, .error e, ev2) => (w1, f1, .error e, ev ++ ev2)
    | (w1, f1, .ok h, ev2) =>
      let bs := (((lookupP h.hpath w1.objects).getD []).drop h.offset).take cap
      (w1, { f1 with file := some { h with offset := h.offset + bs.length } }, .ok bs, ev ++ ev2)

/-- Contents of a file after writing `new` at offset `off` over `old`
(zero-padding if the offset lies past the end, no truncation). -/
def writeAt (old : List Nat) (off : Nat) (new : List Nat) : List Nat :=
  (old ++ List.replicate (off - old.length) 0).take off ++ new ++ old.drop (off + new.length)

/-- Embeds `File.Write` (src lines 134-141): open the lazy handle (creating
the file and missing parent directories if needed), then write the payload at
the current offset. -/
def File.Write (w : World) (f : File) (p : List Nat) :
    World × File × Except GoErr Nat × List Event :=
  match File.openFile w f with
  | (w1, f1, .error e, ev) => (w1, f1, .error e, ev)
  | (w1, f1, .ok h, ev) =>
    let old := (lookupP h.hpath w1.objects).getD []
    let w2 := { w1 with objects := setP h.hpath (writeAt old h.offset p) w1.objects }
    (w2, { f1 with file := some { h with offset := h.offset + p.length } }, .ok p.length,
      ev ++ [.write h.hpath p])

/-- Embeds `File.Seek` (src lines 107-117): open the lazy handle (creating
the file if needed), then move the offset relative to start (0), current
position (1) or end (2); a negative resulting position is an error. -/
def File.Seek (w : World) (f : File) (offset : Int) (whence : Nat) :
    World × File × Except GoErr Int × List Event :=
  match File.openFile w f with
  | (w1, f1, .error e, ev) => (w1, f1, .error e, ev)
  | (w1, f1, .ok h, ev) =>
    let size := ((lookupP h.hpath w1.objects).getD []).length
    let target : Option Int :=
      if whence = 0 then some offset
      else if whence = 1 then some ((h.offset : Int) + offset)
      else if whence = 2 then some ((size : Int) + offset)
      else none
    match target with
    | none => (w1, f1, .error { msg := "invalid whence" }, ev)
    | some t =>
      if t < 0 then (w1, f1, .error { msg := "negative position" }, ev)
      else (w1, { f1 with file := some { h with offset := t.toNat } }, .ok t, ev)

/-- Outcome of `os.Remove` on a path: a recorded failure takes priority,
removing a missing path is an error, otherwise the object is unlinked. -/
def osRemove (w : World) (p : List Char) : World × Option GoErr :=
  match lookupP p w.removeFail with
  | some e => (w, some e)
  | none =>
    match lookupP p w.objects with
    | none => (w, some { msg := "remove: no such file or directory" })
    | some _ => ({ w with objects := removeP p w.objects }, none)

/-- Embeds `File.Delete` (src lines 37-44): `os.Remove(f.Path())`; on success
the cached handle is invalidated (`f.file = nil`), on failure it is kept. -/
def File.Delete (w : World) (f : File) : World × File × Option GoErr × List Event :=
  match osRemove w (File.Path f) with
  | (w1, none) => (w1, { f with file := none }, none, [.remove (File.Path f)])
  | (w1, some e) => (w1, f, some e, [.remove (File.Path f)])

/-- Modelled from the spec: `utils.TouchCopy` (the utils package is not under
src/) — the generic streaming copy: it reads the full content from the source
File's Read side and transfers it to the destination File's Write side,
guaranteeing that Write is invoked at least once (with an empty payload)
whenever the source exists, so the destination is materialized even when
empty.  Returns the updated destination, then the updated source. -/
def touchCopy (w : World) (dst src : File) :
    World × File × File × Option GoErr × List Event :=
  match w.stat (File.Path src) with
  | .err e => (w, dst, src, some e, [.stat (File.Path src)])
  | .notExist =>
    (w, dst, src, some { msg := "failed to read. File does not exist" },
      [.stat (File.Path src)])
  | .ok contents =>
    match File.Read w src contents.length with
    | (w1, src1, .error e, ev) => (w1, dst, src1, some e, ev)
    | (w1, src1, .ok bs, ev) =>
      match File.Write w1 dst bs with
      | (w2, dst1, .error e, ev2) => (w2, dst1, src1, some e, ev ++ ev2)
      | (w2, dst1, .ok _, ev2) => (w2, dst1, src1, none, ev ++ ev2)

/-- Embeds `copyWithName` (src lines 197-216): build the destination File
from the joined path via the target filesystem's factory, stream the content
across with `utils.TouchCopy`, close the source, close the destination; the
first failure aborts and is returned (with no destination File handed out).
Result: world, updated source, returned destination (on full success),
error, trace. -/
def File.copyWithName (w : World) (f : File) (name : List Char) (location : Location) :
    World × File × Option File × Option GoErr × List Event :=
  match fsNewFile (Location.Volume location) (goJoin (Location.Path location) name) with
  | .error e => (w, f, none, some e, [])
  | .ok newFile =>
    match touchCopy w newFile f with
    | (w1, _, f1, some e, ev) => (w1, f1, none, some e, ev)
    | (w1, newFile1, f1, none, ev) =>
      match File.Close f1 with
      | (f2, some e, ev2) => (w1, f2, none, some e, ev ++ ev2)
      | (f2, none, ev2) =>
        match File.Close newFile1 with
        | (_, some e, ev3) => (w1, f2, none, some e, ev ++ ev2 ++ ev3)
        | (newFile2, none, ev3) => (w1, f2, some newFile2, none, ev ++ ev2 ++ ev3)

/-- Which File instance an operation hands back to the caller: the receiver
itself (`return f`), a freshly created File, or nil. -/
inductive Returned
  | self
  | fresh (nf : File)
  | nofile
deriving DecidableEq, Repr

/-- Embeds `File.CopyToFile` (src lines 176-180):
`copyWithName(target.Name(), target.Location())`, error only. -/
def File.CopyToFile (w : World) (f : File) (target : File) :
    World × File × Option GoErr × List Event :=
  match File.copyWithName w f (File.Name target) target.location with
  | (w1, f1, _, err, ev) => (w1, f1, err, ev)

/-- Embeds `File.CopyToLocation` (src lines 182-185):
`copyWithName(f.name, location)`; on success the freshly created destination
File is returned. -/
def File.CopyToLocation (w : World) (f : File) (location : Location) :
    World × File × Returned × Option GoErr × List Event :=
  match File.copyWithName w f f.name location with
  | (w1, f1, some nf, err, ev) => (w1, f1, .fresh nf, err, ev)
  | (w1, f1, none, err, ev) => (w1, f1, .nofile, err, ev)

/-- Embeds `File.MoveToFile` (src lines 148-158): `copyWithName` then, only
if it succeeded, `Delete` on the source; a copy error is returned unchanged
and delete is never attempted. -/
def File.MoveToFile (w : World) (f : File) (target : File) :
    World × File × Option GoErr × List Event :=
  match File.copyWithName w f (File.Name target) target.location with
  | (w1, f1, _, some e, ev) => (w1, f1, some e, ev)
  | (w1, f1, _, none, ev) =>
    match File.Delete w1 f1 with
    | (w2, f2, derr, ev2) => (w2, f2, derr, ev ++ ev2)

/-- Embeds `File.MoveToLocation` (src lines 160-174): `copyWithName` then,
only if it succeeded, `Delete` on the source; on full success the receiver's
`location` field is reassigned in place.  Every branch returns the receiver
itself (`return f, ...`), hence `Returned.self`. -/
def File.MoveToLocation (w : World) (f : File) (location : Location) :
    World × File × Returned × Option GoErr × List Event :=
  match File.copyWithName w f f.name location with
  | (w1, f1, _, some e, ev) => (w1, f1, .self, some e, ev)
  | (w1, f1, _, none, ev) =>
    match File.Delete w1 f1 with
    | (w2, f2, some de, ev2) => (w2, f2, .self, some de, ev ++ ev2)
    | (w2, f2, none, ev2) => (w2, { f2 with location := location }, .self, none, ev ++ ev2)

/-! ### Normalized-path shapes (for the path invariant) -/

/-- A valid path segment: nonempty, free of separators, and not one of the
special elements `.` and `..`. -/
def validSeg (s : List Char) : Prop :=
  s ≠ [] ∧ (∀ c ∈ s, c ≠ '/') ∧ s ≠ ['.'] ∧ s ≠ ['.', '.']

instance (s : List Char) : Decidable (validSeg s) := by
  unfold validSeg; infer_instance

/-- Body of a normalized directory path: the segments, each followed by a
separator. -/
def segsFlat : List (List Char) → List Char
  | [] => []
  | s :: rest => s ++ '/' :: segsFlat rest

/-- The normalized absolute directory path with the given segments: always
starts and ends with a separator and never doubles one. -/
def dirOfSegs (segs : List (List Char)) : List Char := '/' :: segsFlat segs

/-- Separator step of `Clean` on a rooted path when the (reversed) buffer is
about to receive a segment. -/
def sepOut (out : List Char) : List Char := if out.length ≠ 1 then '/' :: out else out

/-- The (reversed) `Clean` buffer after processing a list of segments. -/
def outAcc : List (List Char) → List Char → List Char
  | [], acc => acc
  | s :: rest, acc => outAcc rest (s.reverse ++ sepOut acc)

/-- The segments each preceded by a separator (helper shape for `outAcc`). -/
def slashFlat : List (List Char) → List Char
  | [] => []
  | s :: rest => '/' :: (s ++ slashFlat rest)

/-- No two adjacent separators anywhere in the list. -/
def noDoubleSep (l : List Char) : Prop :=
  List.Chain' (fun a b => ¬(a = '/' ∧ b = '/')) l

/-! ### Concrete sample data used by witnesses and counterexamples -/

def wC1 : World :=
  { objects := [("/s/a.txt".data, [7])],
    statFail := [("/s/a.txt".data, { msg := "probe boom" })],
    removeFail := [], mkdirFail := [], openFail := [], closeErrOf := [] }

def fC1 : File := { file := none, name := "a.txt".data, location := { name := "/s/".data } }

def tC1 : File := { file := none, name := "b.txt".data, location := { name := "/d/".data } }

def locC1 : Location := { name := "/d/".data }

def wC2 : World :=
  { objects := [], statFail := [("/p/other.txt".data, { msg := "probe boom" })],
    removeFail := [], mkdirFail := [], openFail := [], closeErrOf := [] }

def fC2 : File := { file := none, name := "hello.txt".data, location := { name := "/p/".data } }

def fC2b : File := { file := none, name := "other.txt".data, location := { name := "/p/".data } }

def wC3 : World :=
  { objects := [("/s/a.txt".data, [7])], statFail := [], removeFail := [],
    mkdirFail := [], openFail := [], closeErrOf := [] }

def fC3 : File := { file := none, name := "a.txt".data, location := { name := "/s/".data } }

def tC3 : File := { file := none, name := "b.txt".data, location := { name := "/d/".data } }

def wC4 : World :=
  { objects := [("/s/e.txt".data, []), ("/d/b.txt".data, [9])], statFail := [],
    removeFail := [], mkdirFail := [], openFail := [], closeErrOf := [] }

def fC4 : File := { file := none, name := "e.txt".data, location := { name := "/s/".data } }

def tC4 : File := { file := none, name := "b.txt".data, location := { name := "/d/".data } }

def wC4b : World :=
  { objects := [("/s/e.txt".data, [])], statFail := [], removeFail := [],
    mkdirFail := [], openFail := [], closeErrOf := [] }

def nfC4 : File := { file := none, name := "b.txt".data, location := { name := "/d/".data } }

def fC5 : File :=
  { file := some { hpath := "/s/a.txt".data, offset := 0, closeErr := none },
    name := "a.txt".data, location := { name := "/s/".data } }

def fC5b : File := { file := none, name := "b.txt".data, location := { name := "/s/".data } }

def fC6 : File :=
  { file := some { hpath := "/s/a.txt".data, offset := 0, closeErr := some { msg := "close failed" } },
    name := "a.txt".data, location := { name := "/s/".data } }

def wC8 : World :=
  { objects := [("/s/a.txt".data, [7])], statFail := [], removeFail := [],
    mkdirFail := [], openFail := [], closeErrOf := [] }

def fC8 : File :=
  { file := some { hpath := "/s/a.txt".data, offset := 3, closeErr := none },
    name := "a.txt".data, location := { name := "/s/".data } }

def wC8b : World :=
  { objects := [("/s/a.txt".data, [7])], statFail := [],
    removeFail := [("/s/a.txt".data, { msg := "remove boom" })],
    mkdirFail := [], openFail := [], closeErrOf := [] }

def wC9 : World :=
  { objects := [("/s/a.txt".data, [7])], statFail := [], removeFail := [],
    mkdirFail := [], openFail := [], closeErrOf := [] }

def fC9 : File := { file := none, name := "a.txt".data, location := { name := "/s/".data } }

def locC9 : Location := { name := "/d/".data }

def wC10 : World :=
  { objects := [], statFail := [], removeFail := [], mkdirFail := [],
    openFail := [], closeErrOf := [] }

def fC10 : File := { file := none, name := "m.txt".data, location := { name := "/s/".data } }

def fC7 : File :=
  { file := none, name := "file.txt".data, location := { name := "/some/path/".data } }

/-! ### Helper lemmas -/

theorem lookupP_setP {β : Type} (q p : List Char) (v : β) (l : List (List Char × β)) :
    lookupP q (setP p v l) = if q = p then some v else lookupP q l := by
  induction l with
  | nil => simp [setP, lookupP]
  | cons kv rest ih =>
    obtain ⟨k', v'⟩ := kv
    by_cases h : p = k'
    · subst h
      by_cases hq : q = p <;> simp [setP, lookupP, hq]
    · by_cases hq : q = k' <;> by_cases hq2 : q = p <;>
        simp_all [setP, lookupP]

theorem lookupP_removeP {β : Type} (q p : List Char) (l : List (List Char × β)) :
    lookupP q (removeP p l) = if q = p then none else lookupP q l := by
  induction l with
  | nil => simp [removeP, lookupP]
  | cons kv rest ih =>
    obtain ⟨k', v'⟩ := kv
    by_cases h : p = k'
    · subst h
      by_cases hq : q = p <;> simp_all [removeP, lookupP]
    · by_cases hq : q = k' <;> by_cases hq2 : q = p <;>
        simp_all [removeP, lookupP]

/-- `openFile` never deletes an object: presence of any object is preserved. -/
theorem openFile_preserves (w : World) (f : File) (q : List Char)
    (h : (lookupP q w.objects).isSome) :
    (lookupP q (File.openFile w f).1.objects).isSome := by
  rcases hf : f.file with _ | hdl
  · rcases hm : lookupP (Location.Path f.location) w.mkdirFail with _ | e
    · rcases ho : lookupP (File.Path f) w.openFail with _ | e
      · rcases hob : lookupP (File.Path f) w.objects with _ | bs
        · simp [File.openFile, hf, hm, ho, hob, lookupP_setP]
          split <;> simp_all
        · simpa [File.openFile, hf, hm, ho, hob] using h
      · simpa [File.openFile, hf, hm, ho] using h
    · simpa [File.openFile, hf, hm] using h
  · simpa [File.openFile, hf] using h

/-- `openFile` touches only the `file` field of its File. -/
theorem openFile_ident (w : World) (f : File) :
    (File.openFile w f).2.1.name = f.name ∧ (File.openFile w f).2.1.location = f.location := by
  rcases hf : f.file with _ | hdl
  · rcases hm : lookupP (Location.Path f.location) w.mkdirFail with _ | e
    · rcases ho : lookupP (File.Path f) w.openFail with _ | e
      · simp [File.openFile, hf, hm, ho]
      · simp [File.openFile, hf, hm, ho]
    · simp [File.openFile, hf, hm]
  · simp [File.openFile, hf]

/-- Events emitted by `openFile` are only mkdir/open calls. -/
theorem openFile_events (w : World) (f : File) :
    ∀ ev ∈ (File.openFile w f).2.2.2,
      ev.isRemove = false ∧ ev.isNativeCopy = false := by
  rcases hf : f.file with _ | hdl
  · rcases hm : lookupP (Location.Path f.location) w.mkdirFail with _ | e
    · rcases ho : lookupP (File.Path f) w.openFail with _ | e
      · simp [File.openFile, hf, hm, ho, Event.isRemove, Event.isNativeCopy]
      · simp [File.openFile, hf, hm, ho, Event.isRemove, Event.isNativeCopy]
    · simp [File.openFile, hf, hm, Event.isRemove, Event.isNativeCopy]
  · simp [File.openFile, hf]

/-- `Read` never deletes an object. -/
theorem Read_preserves (w : World) (f : File) (cap : Nat) (q : List Char)
    (h : (lookupP q w.objects).isSome) :
    (lookupP q (File.Read w f cap).1.objects).isSome := by
  have hopen := openFile_preserves w f q h
  rcases hs : w.stat (File.Path f) with bs | _ | e
  · rcases ho : File.openFile w f with ⟨w1, f1, r, ev2⟩
    rw [ho] at hopen
    rcases r with e | hdl
    · simpa [File.Read, File.Exists, hs, ho] using hopen
    · simpa [File.Read, File.Exists, hs, ho] using hopen
  · simpa [File.Read, File.Exists, hs] using h
  · simpa [File.Read, File.Exists, hs] using h

/-- `Read` touches only the `file` field of its File. -/
theorem Read_ident (w : World) (f : File) (cap : Nat) :
    (File.Read w f cap).2.1.name = f.name ∧ (File.Read w f cap).2.1.location = f.location := by
  have hid := openFile_ident w f
  rcases hs : w.stat (File.Path f) with bs | _ | e
  · rcases ho : File.openFile w f with ⟨w1, f1, r, ev2⟩
    rw [ho] at hid
    rcases r with e | hdl
    · simpa [File.Read, File.Exists, hs, ho] using hid
    · simpa [File.Read, File.Exists, hs, ho] using hid
  · simp [File.Read, File.Exists, hs]
  · simp [File.Read, File.Exists, hs]

/-- events of `Read` are stat/mkdir/open calls only. -/
theorem Read_events (w : World) (f : File) (cap : Nat) :
    ∀ ev ∈ (File.Read w f cap).2.2.2,
      ev.isRemove = false ∧ ev.isNativeCopy = false := by
  have hev := openFile_events w f
  rcases hs : w.stat (File.Path f) with bs | _ | e
  · rcases ho : File.openFile w f with ⟨w1, f1, r, ev2⟩
    rw [ho] at hev
    rcases r with e | hdl
    · intro ev hmem
      simp only [File.Read, File.Exists, hs, ho] at hmem
      rcases List.mem_append.1 hmem with h1 | h2
      · simp only [List.mem_singleton] at h1
        subst h1; simp [Event.isRemove, Event.isNativeCopy]
      · exact hev ev h2
    · intro ev hmem
      simp only [File.Read, File.Exists, hs, ho] at hmem
      rcases List.mem_append.1 hmem with h1 | h2
      · simp only [List.mem_singleton] at h1
        subst h1; simp [Event.isRemove, Event.isNativeCopy]
      · exact hev ev h2
  · intro ev hmem
    simp only [File.Read, File.Exists, hs, List.mem_singleton] at hmem
    subst hmem; simp [Event.isRemove, Event.isNativeCopy]
  · intro ev hmem
    simp only [File.Read, File.Exists, hs, List.mem_singleton] at hmem
    subst hmem; simp [Event.isRemove, Event.isNativeCopy]

/-- `Write` never deletes an object. -/
theorem Write_preserves (w : World) (f : File) (p : List Nat) (q : List Char)
    (h : (lookupP q w.objects).isSome) :
    (lookupP q (File.Write w f p).1.objects).isSome := by
  have hopen := openFile_preserves w f q h
  rcases ho : File.openFile w f with ⟨w1, f1, r, ev⟩
  rw [ho] at hopen
  rcases r with e | hdl
  · simpa [File.Write, ho] using hopen
  · simp only [File.Write, ho]
    simp only [lookupP_setP]
    split <;> simp_all

/-- `Write` touches only the `file` field of its File. -/
theorem Write_ident (w : World) (f : File) (p : List Nat) :
    (File.Write w f p).2.1.name = f.name ∧ (File.Write w f p).2.1.location = f.location := by
  have hid := openFile_ident w f
  rcases ho : File.openFile w f with ⟨w1, f1, r, ev⟩
  rw [ho] at hid
  rcases r with e | hdl
  · simpa [File.Write, ho] using hid
  · simpa [File.Write, ho] using hid

/-- events of `Write` are mkdir/open/write calls only. -/
theorem Write_events (w : World) (f : File) (p : List Nat) :
    ∀ ev ∈ (File.Write w f p).2.2.2,
      ev.isRemove = false ∧ ev.isNativeCopy = false := by
  have hev := openFile_events w f
  rcases ho : File.openFile w f with ⟨w1, f1, r, ev0⟩
  rw [ho] at hev
  rcases r with e | hdl
  · intro ev hmem
    simp only [File.Write, ho] at hmem
    exact hev ev hmem
  · intro ev hmem
    simp only [File.Write, ho] at hmem
    rcases List.mem_append.1 hmem with h1 | h2
    · exact hev ev h1
    · simp only [List.mem_singleton] at h2
      subst h2; simp [Event.isRemove, Event.isNativeCopy]

/-- `Close` touches only the `file` field of its File, and the world not at all. -/
theorem Close_ident (f : File) :
    (File.Close f).1.name = f.name ∧ (File.Close f).1.location = f.location := by
  rcases hf : f.file with _ | hdl
  · simp [File.Close, hf]
  · rcases hc : hdl.closeErr with _ | e
    · simp [File.Close, hf, hc]
    · simp [File.Close, hf, hc]

/-- events of `Close` are close calls only. -/
theorem Close_events (f : File) :
    ∀ ev ∈ (File.Close f).2.2,
      ev.isRemove = false ∧ ev.isNativeCopy = false := by
  rcases hf : f.file with _ | hdl
  · simp [File.Close, hf]
  · rcases hc : hdl.closeErr with _ | e
    · simp [File.Close, hf, hc, Event.isRemove, Event.isNativeCopy]
    · simp [File.Close, hf, hc, Event.isRemove, Event.isNativeCopy]

/-- `touchCopy` never deletes an object. -/
theorem touchCopy_preserves (w : World) (dst src : File) (q : List Char)
    (h : (lookupP q w.objects).isSome) :
    (lookupP q (touchCopy w dst src).1.objects).isSome := by
  rcases hs : w.stat (File.Path src) with contents | _ | e
  · have h1 := Read_preserves w src contents.length q h
    rcases hr : File.Read w src contents.length with ⟨w1, src1, r, ev⟩
    rw [hr] at h1
    rcases r with e | bs
    · simpa [touchCopy, hs, hr] using h1
    · have h2 := Write_preserves w1 dst bs q h1
      rcases hw : File.Write w1 dst bs with ⟨w2, dst1, r2, ev2⟩
      rw [hw] at h2
      rcases r2 with e | n
      · simpa [touchCopy, hs, hr, hw] using h2
      · simpa [touchCopy, hs, hr, hw] using h2
  · simpa [touchCopy, hs] using h
  · simpa [touchCopy, hs] using h

/-- `touchCopy` touches only the `file` field of its source File. -/
theorem touchCopy_ident (w : World) (dst src : File) :
    (touchCopy w dst src).2.2.1.name = src.name ∧
    (touchCopy w dst src).2.2.1.location = src.location := by
  rcases hs : w.stat (File.Path src) with contents | _ | e
  · have hid := Read_ident w src contents.length
    rcases hr : File.Read w src contents.length with ⟨w1, src1, r, ev⟩
    rw [hr] at hid
    rcases r with e | bs
    · simpa [touchCopy, hs, hr] using hid
    · rcases hw : File.Write w1 dst bs with ⟨w2, dst1, r2, ev2⟩
      rcases r2 with e | n
      · simpa [touchCopy, hs, hr, hw] using hid
      · simpa [touchCopy, hs, hr, hw] using hid
  · simp [touchCopy, hs]
  · simp [touchCopy, hs]

/-- events of `touchCopy` are stat/mkdir/open/write calls only. -/
theorem touchCopy_events (w : World) (dst src : File) :
    ∀ ev ∈ (touchCopy w dst src).2.2.2.2,
      ev.isRemove = false ∧ ev.isNativeCopy = false := by
  rcases hs : w.stat (File.Path src) with contents | _ | e
  · have hev := Read_events w src contents.length
    rcases hr : File.Read w src contents.length with ⟨w1, src1, r, ev0⟩
    rw [hr] at hev
    rcases r with e | bs
    · intro ev hmem
      simp only [touchCopy, hs, hr] at hmem
      exact hev ev hmem
    · have hev2 := Write_events w1 dst bs
      rcases hw : File.Write w1 dst bs with ⟨w2, dst1, r2, ev2⟩
      rw [hw] at hev2
      rcases r2 with e | n
      · intro ev hmem
        simp only [touchCopy, hs, hr, hw] at hmem
        rcases List.mem_append.1 hmem with h1 | h2
        · exact hev ev h1
        · exact hev2 ev h2
      · intro ev hmem
        simp only [touchCopy, hs, hr, hw] at hmem
        rcases List.mem_append.1 hmem with h1 | h2
        · exact hev ev h1
        · exact hev2 ev h2
  · intro ev hmem
    simp only [touchCopy, hs, List.mem_singleton] at hmem
    subst hmem; simp [Event.isRemove, Event.isNativeCopy]
  · intro ev hmem
    simp only [touchCopy, hs, List.mem_singleton] at hmem
    subst hmem; simp [Event.isRemove, Event.isNativeCopy]

/-- a successful `Write` leaves a write event with its payload in the trace. -/
theorem Write_success_write (w : World) (f : File) (p : List Nat) (n : Nat)
    (h : (File.Write w f p).2.2.1 = .ok n) :
    ∃ pa, Event.write pa p ∈ (File.Write w f p).2.2.2 := by
  rcases ho : File.openFile w f with ⟨w1, f1, r, ev⟩
  rcases r with e | hdl
  · simp [File.Write, ho] at h
  · refine ⟨hdl.hpath, ?_⟩
    simp [File.Write, ho]

/-- a successful `touchCopy` leaves a write event in the trace: the generic
streaming copy transfers through ordinary Write calls. -/
theorem touchCopy_success_write (w : World) (dst src : File)
    (h : (touchCopy w dst src).2.2.2.1 = none) :
    ∃ pa bs, Event.write pa bs ∈ (touchCopy w dst src).2.2.2.2 := by
  rcases hs : w.stat (File.Path src) with contents | _ | e
  · rcases hr : File.Read w src contents.length with ⟨w1, src1, r, ev0⟩
    rcases r with e | bs
    · simp [touchCopy, hs, hr] at h
    · rcases hw : File.Write w1 dst bs with ⟨w2, dst1, r2, ev2⟩
      rcases r2 with e | n
      · simp [touchCopy, hs, hr, hw] at h
      · have := Write_success_write w1 dst bs n (by simp [hw])
        rcases this with ⟨pa, hmem⟩
        rw [hw] at hmem
        refine ⟨pa, bs, ?_⟩
        simp only [touchCopy, hs, hr, hw]
        exact List.mem_append.2 (Or.inr hmem)
  · simp [touchCopy, hs] at h
  · simp [touchCopy, hs] at h

/-- `copyWithName` never deletes an object: in particular the source object
survives the copy phase, successful or not. -/
theorem copyWithName_preserves (w : World) (f : File) (name : List Char)
    (location : Location) (q : List Char) (h : (lookupP q w.objects).isSome) :
    (lookupP q (File.copyWithName w f name location).1.objects).isSome := by
  rcases hn : fsNewFile (Location.Volume location) (goJoin (Location.Path location) name)
    with e | newFile
  · simpa [File.copyWithName, hn] using h
  · have h1 := touchCopy_preserves w newFile f q h
    rcases ht : touchCopy w newFile f with ⟨w1, nf1, f1, terr, ev⟩
    rw [ht] at h1
    rcases terr with _ | e
    · rcases hc : File.Close f1 with ⟨f2, cerr, ev2⟩
      rcases cerr with _ | e
      · rcases hc2 : File.Close nf1 with ⟨nf2, cerr2, ev3⟩
        rcases cerr2 with _ | e
        · simpa [File.copyWithName, hn, ht, hc, hc2] using h1
        · simpa [File.copyWithName, hn, ht, hc, hc2] using h1
      · simpa [File.copyWithName, hn, ht, hc] using h1
    · simpa [File.copyWithName, hn, ht] using h1

/-- `copyWithName` touches only the `file` field of its source File. -/
theorem copyWithName_ident (w : World) (f : File) (name : List Char)
    (location : Location) :
    (File.copyWithName w f name location).2.1.name = f.name ∧
    (File.copyWithName w f name location).2.1.location = f.location := by
  rcases hn : fsNewFile (Location.Volume location) (goJoin (Location.Path location) name)
    with e | newFile
  · simp [File.copyWithName, hn]
  · have hid := touchCopy_ident w newFile f
    rcases ht : touchCopy w newFile f with ⟨w1, nf1, f1, terr, ev⟩
    rw [ht] at hid
    rcases terr with _ | e
    · have hid2 := Close_ident f1
      rcases hc : File.Close f1 with ⟨f2, cerr, ev2⟩
      rw [hc] at hid2
      rcases cerr with _ | e
      · rcases hc2 : File.Close nf1 with ⟨nf2, cerr2, ev3⟩
        rcases cerr2 with _ | e
        · simp only [File.copyWithName, hn, ht, hc, hc2]
          exact ⟨hid2.1.trans hid.1, hid2.2.trans hid.2⟩
        · simp only [File.copyWithName, hn, ht, hc, hc2]
          exact ⟨hid2.1.trans hid.1, hid2.2.trans hid.2⟩
      · simp only [File.copyWithName, hn, ht, hc]
        exact ⟨hid2.1.trans hid.1, hid2.2.trans hid.2⟩
    · simpa [File.copyWithName, hn, ht] using hid

/-- events of `copyWithName` contain no remove call and no native-copy call:
the local-disk adapter's copy phase never deletes and never uses a
server-side copy primitive. -/
theorem copyWithName_events (w : World) (f : File) (name : List Char)
    (location : Location) :
    ∀ ev ∈ (File.copyWithName w f name location).2.2.2.2,
      ev.isRemove = false ∧ ev.isNativeCopy = false := by
  rcases hn : fsNewFile (Location.Volume location) (goJoin (Location.Path location) name)
    with e | newFile
  · simp [File.copyWithName, hn]
  · have hev := touchCopy_events w newFile f
    rcases ht : touchCopy w newFile f with ⟨w1, nf1, f1, terr, ev⟩
    rw [ht] at hev
    rcases terr with _ | e
    · have hev2 := Close_events f1
      rcases hc : File.Close f1 with ⟨f2, cerr, ev2⟩
      rw [hc] at hev2
      rcases cerr with _ | e
      · have hev3 := Close_events nf1
        rcases hc2 : File.Close nf1 with ⟨nf2, cerr2, ev3⟩
        rw [hc2] at hev3
        rcases cerr2 with _ | e
        · intro x hmem
          simp only [File.copyWithName, hn, ht, hc, hc2] at hmem
          rcases List.mem_append.1 hmem with h12 | h3
          · rcases List.mem_append.1 h12 with h1 | h2
            · exact hev x h1
            · exact hev2 x h2
          · exact hev3 x h3
        · intro x hmem
          simp only [File.copyWithName, hn, ht, hc, hc2] at hmem
          rcases List.mem_append.1 hmem with h12 | h3
          · rcases List.mem_append.1 h12 with h1 | h2
            · exact hev x h1
            · exact hev2 x h2
          · exact hev3 x h3
      · intro x hmem
        simp only [File.copyWithName, hn, ht, hc] at hmem
        rcases List.mem_append.1 hmem with h1 | h2
        · exact hev x h1
        · exact hev2 x h2
    · intro x hmem
      simp only [File.copyWithName, hn, ht] at hmem
      exact hev x hmem

/-- `Delete` touches only the `file` field of its File. -/
theorem Delete_ident (w : World) (f : File) :
    (File.Delete w f).2.1.name = f.name ∧ (File.Delete w f).2.1.location = f.location := by
  rcases hrm : lookupP (File.Path f) w.removeFail with _ | e
  · rcases hob : lookupP (File.Path f) w.objects with _ | bs
    · simp [File.Delete, osRemove, hrm, hob]
    · simp [File.Delete, osRemove, hrm, hob]
  · simp [File.Delete, osRemove, hrm]

/-! ### Claim theorems -/

/-- Claim C1: `MoveToFile` and `MoveToLocation` are Copy followed by Delete of
the source; when the copy phase fails, the copy error is returned unchanged,
no delete call is ever issued, and the source object (if it existed) still
exists afterward. -/
theorem move_copy_fail_aborts (w : World) (f target : File) (loc : Location)
    (e e' : GoErr) :
    ((File.copyWithName w f (File.Name target) target.location).2.2.2.1 = some e →
      (File.MoveToFile w f target).2.2.1 = some e ∧
      (∀ ev ∈ (File.MoveToFile w f target).2.2.2, ev.isRemove = false) ∧
      ((lookupP (File.Path f) w.objects).isSome →
        (lookupP (File.Path f) (File.MoveToFile w f target).1.objects).isSome)) ∧
    ((File.copyWithName w f f.name loc).2.2.2.1 = some e' →
      (File.MoveToLocation w f loc).2.2.2.1 = some e' ∧
      (∀ ev ∈ (File.MoveToLocation w f loc).2.2.2.2, ev.isRemove = false) ∧
      ((lookupP (File.Path f) w.objects).isSome →
        (lookupP (File.Path f) (File.MoveToLocation w f loc).1.objects).isSome)) := by
  constructor
  · intro hc
    have hev := copyWithName_events w f (File.Name target) target.location
    have hpr := fun hs => copyWithName_preserves w f (File.Name target) target.location
      (File.Path f) hs
    rcases hcw : File.copyWithName w f (File.Name target) target.location
      with ⟨w1, f1, nf, cerr, ev⟩
    rw [hcw] at hc hev hpr
    simp only at hc
    subst hc
    refine ⟨by simp [File.MoveToFile, hcw], ?_, ?_⟩
    · intro x hmem
      simp only [File.MoveToFile, hcw] at hmem
      exact (hev x hmem).1
    · intro hs
      simpa [File.MoveToFile, hcw] using hpr hs
  · intro hc
    have hev := copyWithName_events w f f.name loc
    have hpr := fun hs => copyWithName_preserves w f f.name loc (File.Path f) hs
    rcases hcw : File.copyWithName w f f.name loc with ⟨w1, f1, nf, cerr, ev⟩
    rw [hcw] at hc hev hpr
    simp only at hc
    subst hc
    refine ⟨by simp [File.MoveToLocation, hcw], ?_, ?_⟩
    · intro x hmem
      simp only [File.MoveToLocation, hcw] at hmem
      exact (hev x hmem).1
    · intro hs
      simpa [File.MoveToLocation, hcw] using hpr hs

/-- Witness for C1: a concrete world whose source metadata probe fails, so the
copy phase of both move operations fails; both conclusions hold there. -/
theorem move_copy_fail_aborts_witness :
    ((File.copyWithName wC1 fC1 (File.Name tC1) tC1.location).2.2.2.1 =
        some { msg := "probe boom" } ∧
      (File.MoveToFile wC1 fC1 tC1).2.2.1 = some { msg := "probe boom" } ∧
      (∀ ev ∈ (File.MoveToFile wC1 fC1 tC1).2.2.2, ev.isRemove = false) ∧
      ((lookupP (File.Path fC1) wC1.objects).isSome →
        (lookupP (File.Path fC1) (File.MoveToFile wC1 fC1 tC1).1.objects).isSome)) ∧
    ((File.copyWithName wC1 fC1 fC1.name locC1).2.2.2.1 = some { msg := "probe boom" } ∧
      (File.MoveToLocation wC1 fC1 locC1).2.2.2.1 = some { msg := "probe boom" } ∧
      (∀ ev ∈ (File.MoveToLocation wC1 fC1 locC1).2.2.2.2, ev.isRemove = false) ∧
      ((lookupP (File.Path fC1) wC1.objects).isSome →
        (lookupP (File.Path fC1) (File.MoveToLocation wC1 fC1 locC1).1.objects).isSome)) :=
  ⟨⟨by decide,
    (move_copy_fail_aborts wC1 fC1 tC1 locC1 { msg := "probe boom" }
      { msg := "probe boom" }).1 (by decide)⟩,
   ⟨by decide,
    (move_copy_fail_aborts wC1 fC1 tC1 locC1 { msg := "probe boom" }
      { msg := "probe boom" }).2 (by decide)⟩⟩

/-- Claim C2: `Exists` translates a not-found metadata probe to
`(false, nil)` — never an error — and propagates any other probe failure as
`(false, err)`. -/
theorem exists_translates_not_found (w : World) (f : File) :
    (w.stat (File.Path f) = .notExist →
      File.Exists w f = (false, none, [.stat (File.Path f)])) ∧
    (∀ e, w.stat (File.Path f) = .err e →
      File.Exists w f = (false, some e, [.stat (File.Path f)])) := by
  constructor
  · intro h; simp [File.Exists, h]
  · intro e h; simp [File.Exists, h]

/-- Witness for C2: a never-created object yields `(false, nil)`, a failing
probe on another path yields `(false, err)`. -/
theorem exists_translates_not_found_witness :
    (wC2.stat (File.Path fC2) = .notExist ∧
      File.Exists wC2 fC2 = (false, none, [.stat (File.Path fC2)])) ∧
    (wC2.stat (File.Path fC2b) = .err { msg := "probe boom" } ∧
      File.Exists wC2 fC2b = (false, some { msg := "probe boom" }, [.stat (File.Path fC2b)])) :=
  ⟨⟨by decide, (exists_translates_not_found wC2 fC2).1 (by decide)⟩,
   ⟨by decide, (exists_translates_not_found wC2 fC2b).2 { msg := "probe boom" } (by decide)⟩⟩

/-- Counterexample for C3: a successful copy between two Files of the
identical scheme (both on the local-disk backend, scheme `file`) never
invokes a native copy primitive — it streams through ordinary write calls. -/
theorem copy_same_scheme_counterexample :
    fC3.location.fileSystem.Scheme = tC3.location.fileSystem.Scheme ∧
    (File.CopyToFile wC3 fC3 tC3).2.2.1 = none ∧
    ((File.CopyToFile wC3 fC3 tC3).2.2.2).all (fun ev => !ev.isNativeCopy) = true ∧
    ((File.CopyToFile wC3 fC3 tC3).2.2.2).any (fun ev => ev.isWrite) = true := by decide

/-- Claim C3 (amended): the local-disk adapter always uses the generic
streaming copy — its copy phase never issues a native (server-side) copy
call, even when source and destination schemes are identical, and any
successful copy went through ordinary Write calls. -/
theorem copy_always_generic_streaming (w : World) (f : File) (name : List Char)
    (loc : Location) :
    (∀ ev ∈ (File.copyWithName w f name loc).2.2.2.2, ev.isNativeCopy = false) ∧
    ((File.copyWithName w f name loc).2.2.2.1 = none →
      ∃ pa bs, Event.write pa bs ∈ (File.copyWithName w f name loc).2.2.2.2) := by
  constructor
  · intro ev hmem
    exact (copyWithName_events w f name loc ev hmem).2
  · intro hsucc
    rcases hn : fsNewFile (Location.Volume loc) (goJoin (Location.Path loc) name)
      with e | newFile
    · simp [File.copyWithName, hn] at hsucc
    · have hw := touchCopy_success_write w newFile f
      rcases ht : touchCopy w newFile f with ⟨w1, nf1, f1, terr, ev⟩
      rw [ht] at hw
      rcases terr with _ | e
      · rcases hc : File.Close f1 with ⟨f2, cerr, ev2⟩
        rcases cerr with _ | e
        · rcases hc2 : File.Close nf1 with ⟨nf2, cerr2, ev3⟩
          rcases cerr2 with _ | e
          · rcases hw rfl with ⟨pa, bs, hmem⟩
            refine ⟨pa, bs, ?_⟩
            simp only [File.copyWithName, hn, ht, hc, hc2]
            exact List.mem_append.2 (Or.inl (List.mem_append.2 (Or.inl hmem)))
          · simp [File.copyWithName, hn, ht, hc, hc2] at hsucc
        · simp [File.copyWithName, hn, ht, hc] at hsucc
      · simp [File.copyWithName, hn, ht] at hsucc

/-- Witness for C3 (amended): at the concrete same-scheme copy of the
counterexample, the copy succeeds and a write event is present while no
native-copy event is. -/
theorem copy_always_generic_streaming_witness :
    (∀ ev ∈ (File.copyWithName wC3 fC3 (File.Name tC3) tC3.location).2.2.2.2,
      ev.isNativeCopy = false) ∧
    ((File.copyWithName wC3 fC3 (File.Name tC3) tC3.location).2.2.2.1 = none) ∧
    (∃ pa bs, Event.write pa bs ∈
      (File.copyWithName wC3 fC3 (File.Name tC3) tC3.location).2.2.2.2) :=
  ⟨(copy_always_generic_streaming wC3 fC3 (File.Name tC3) tC3.location).1,
   by decide,
   (copy_always_generic_streaming wC3 fC3 (File.Name tC3) tC3.location).2 (by decide)⟩

/-- a File produced by the `NewFile` factory holds no open handle. -/
theorem fsNewFile_file_none (v p : List Char) (nf : File) (h : fsNewFile v p = .ok nf) :
    nf.file = none := by
  unfold fsNewFile at h
  split at h
  · cases h
  · cases h; rfl

/-- Counterexample for C4: copying an existing zero-length source onto a
pre-existing destination succeeds and does invoke Write with an empty
payload, but the destination keeps its old contents (size 1, not 0): the
destination is opened with `O_RDWR|O_CREATE` and never truncated. -/
theorem copy_empty_source_counterexample :
    wC4.stat (File.Path fC4) = .ok [] ∧
    (File.CopyToFile wC4 fC4 tC4).2.2.1 = none ∧
    Event.write "/d/b.txt".data [] ∈ (File.CopyToFile wC4 fC4 tC4).2.2.2 ∧
    lookupP "/d/b.txt".data (File.CopyToFile wC4 fC4 tC4).1.objects = some [9] ∧
    ¬ lookupP "/d/b.txt".data (File.CopyToFile wC4 fC4 tC4).1.objects = some [] := by
  decide

/-- Claim C4 (amended): copying an existing zero-length source invokes Write
on the destination at least once (with an empty payload) and closes the
destination, so the destination object always exists afterwards; it has
size 0 whenever it did not already exist before the copy (a pre-existing
destination keeps its old contents since it is never truncated). -/
theorem copy_empty_source_materializes (w : World) (f target nf : File)
    (hnf : fsNewFile (Location.Volume target.location)
      (goJoin (Location.Path target.location) (File.Name target)) = .ok nf)
    (hsrc : w.stat (File.Path f) = .ok [])
    (hfile : f.file = none)
    (hmkS : lookupP (Location.Path f.location) w.mkdirFail = none)
    (hopS : lookupP (File.Path f) w.openFail = none)
    (hclS : lookupP (File.Path f) w.closeErrOf = none)
    (hmkD : lookupP (Location.Path nf.location) w.mkdirFail = none)
    (hopD : lookupP (File.Path nf) w.openFail = none)
    (hclD : lookupP (File.Path nf) w.closeErrOf = none) :
    (File.CopyToFile w f target).2.2.1 = none ∧
    Event.write (File.Path nf) [] ∈ (File.CopyToFile w f target).2.2.2 ∧
    Event.closeHandle (File.Path nf) ∈ (File.CopyToFile w f target).2.2.2 ∧
    (lookupP (File.Path nf) (File.CopyToFile w f target).1.objects).isSome ∧
    (lookupP (File.Path nf) w.objects = none →
      lookupP (File.Path nf) (File.CopyToFile w f target).1.objects = some []) := by
  have hnfl : nf.file = none := fsNewFile_file_none _ _ _ hnf
  rcases hsf : lookupP (File.Path f) w.statFail with _ | e
  · rcases hso : lookupP (File.Path f) w.objects with _ | bs
    · simp [World.stat, hsf, hso] at hsrc
    · have hbs : bs = [] := by simpa [World.stat, hsf, hso] using hsrc
      subst hbs
      have hRd : File.Read w f 0 =
          (w, { f with file := some ⟨File.Path f, 0, none⟩ }, .ok [],
            [.stat (File.Path f), .mkdirAll (Location.Path f.location),
              .openfile (File.Path f)]) := by
        simp [File.Read, File.Exists, World.stat, File.openFile, hsf, hso, hfile,
          hmkS, hopS, hclS]
      rcases hdob : lookupP (File.Path nf) w.objects with _ | old
      · simp [File.CopyToFile, File.copyWithName, hnf, touchCopy, hsrc, hRd,
          File.Write, File.openFile, hnfl, hmkD, hopD, hdob, hclD, lookupP_setP,
          writeAt, File.Close]
      · simp [File.CopyToFile, File.copyWithName, hnf, touchCopy, hsrc, hRd,
          File.Write, File.openFile, hnfl, hmkD, hopD, hdob, hclD, lookupP_setP,
          writeAt, File.Close]
  · simp [World.stat, hsf] at hsrc

/-- Witness for C4 (amended): copying a concrete empty source to a fresh
destination writes the empty payload, closes the destination and leaves it
existing with size 0. -/
theorem copy_empty_source_materializes_witness :
    wC4b.stat (File.Path fC4) = .ok [] ∧
    ((File.CopyToFile wC4b fC4 tC4).2.2.1 = none ∧
      Event.write (File.Path nfC4) [] ∈ (File.CopyToFile wC4b fC4 tC4).2.2.2 ∧
      Event.closeHandle (File.Path nfC4) ∈ (File.CopyToFile wC4b fC4 tC4).2.2.2 ∧
      (lookupP (File.Path nfC4) (File.CopyToFile wC4b fC4 tC4).1.objects).isSome ∧
      (lookupP (File.Path nfC4) wC4b.objects = none →
        lookupP (File.Path nfC4) (File.CopyToFile wC4b fC4 tC4).1.objects = some [])) :=
  ⟨by decide,
   copy_empty_source_materializes wC4b fC4 tC4 nfC4 (by decide) (by decide) (by decide)
     (by decide) (by decide) (by decide) (by decide) (by decide) (by decide)⟩

/-- Claim C5: `Close` on a File that never opened a handle is a no-op
returning nil, and after a successful `Close` a second `Close` returns
success and issues no further close call on the underlying resource. -/
theorem close_noop_and_idempotent (f : File) :
    (f.file = none → File.Close f = (f, none, [])) ∧
    (∀ h, f.file = some h → h.closeErr = none →
      File.Close f = ({ f with file := none }, none, [.closeHandle h.hpath]) ∧
      File.Close (File.Close f).1 = ((File.Close f).1, none, [])) := by
  constructor
  · intro h; simp [File.Close, h]
  · intro h hf hc
    have h1 : File.Close f = ({ f with file := none }, none, [.closeHandle h.hpath]) := by
      simp [File.Close, hf, hc]
    refine ⟨h1, ?_⟩
    rw [h1]
    simp [File.Close]

/-- Witness for C5: a never-opened File closes as a no-op and a File holding a
successfully closing handle closes idempotently. -/
theorem close_noop_and_idempotent_witness :
    (fC5b.file = none ∧ File.Close fC5b = (fC5b, none, [])) ∧
    (File.Close fC5 = ({ fC5 with file := none }, none,
        [.closeHandle "/s/a.txt".data]) ∧
      File.Close (File.Close fC5).1 = ((File.Close fC5).1, none, [])) :=
  ⟨⟨by decide, (close_noop_and_idempotent fC5b).1 (by decide)⟩,
   (close_noop_and_idempotent fC5).2
     { hpath := "/s/a.txt".data, offset := 0, closeErr := none } (by decide) (by decide)⟩

/-- Counterexample for C6: a `Close` that returns an error does not clear the
local resource slot — the handle is still held afterwards. -/
theorem close_error_keeps_slot_counterexample :
    (File.Close fC6).2.1 = some { msg := "close failed" } ∧
    (File.Close fC6).1.file ≠ none := by decide

/-- Claim C6 (amended): `Close` always issues the close call on the held
handle (release is always attempted), but the resource slot is cleared only
when that call succeeds; after a failed `Close` the slot still holds the
handle. -/
theorem close_clears_slot_only_on_success (f : File) (h : Handle)
    (hf : f.file = some h) :
    (File.Close f).2.2 = [.closeHandle h.hpath] ∧
    ((File.Close f).2.1 = none → (File.Close f).1.file = none) ∧
    (∀ e, (File.Close f).2.1 = some e → (File.Close f).1 = f) := by
  rcases hc : h.closeErr with _ | e
  · refine ⟨by simp [File.Close, hf, hc], ?_, ?_⟩
    · intro _; simp [File.Close, hf, hc]
    · intro e he; simp [File.Close, hf, hc] at he
  · refine ⟨by simp [File.Close, hf, hc], ?_, ?_⟩
    · intro hn; simp [File.Close, hf, hc] at hn
    · intro e2 he; simp [File.Close, hf, hc]

/-- Witness for C6 (amended): at the failing handle of the counterexample,
the close call is issued and the slot is left untouched. -/
theorem close_clears_slot_only_on_success_witness :
    (File.Close fC6).2.2 = [.closeHandle "/s/a.txt".data] ∧
    ((File.Close fC6).2.1 = none → (File.Close fC6).1.file = none) ∧
    (∀ e, (File.Close fC6).2.1 = some e → (File.Close fC6).1 = fC6) :=
  close_clears_slot_only_on_success fC6
    { hpath := "/s/a.txt".data, offset := 0, closeErr := some { msg := "close failed" } }
    (by decide)

/-- Claim C8: `Delete` issues the backend delete call; on success it removes
the object and invalidates the cached handle, on failure the handle (and the
world) are left untouched. -/
theorem delete_invalidates_on_success (w : World) (f : File) :
    ((File.Delete w f).2.2.1 = none →
      (File.Delete w f).2.1.file = none ∧
      lookupP (File.Path f) (File.Delete w f).1.objects = none ∧
      Event.remove (File.Path f) ∈ (File.Delete w f).2.2.2) ∧
    (∀ e, (File.Delete w f).2.2.1 = some e →
      (File.Delete w f).2.1 = f ∧ (File.Delete w f).1 = w) := by
  rcases hrm : lookupP (File.Path f) w.removeFail with _ | e
  · rcases hob : lookupP (File.Path f) w.objects with _ | bs
    · constructor
      · intro h; simp [File.Delete, osRemove, hrm, hob] at h
      · intro e he; simp [File.Delete, osRemove, hrm, hob]
    · constructor
      · intro _
        refine ⟨?_, ?_, ?_⟩ <;>
          simp [File.Delete, osRemove, hrm, hob, lookupP_removeP]
      · intro e he; simp [File.Delete, osRemove, hrm, hob] at he
  · constructor
    · intro h; simp [File.Delete, osRemove, hrm] at h
    · intro e2 he; simp [File.Delete, osRemove, hrm]

/-- Witness for C8: deleting an existing object invalidates the held handle
and removes the object; a failing delete leaves the handle in place. -/
theorem delete_invalidates_on_success_witness :
    ((File.Delete wC8 fC8).2.1.file = none ∧
      lookupP (File.Path fC8) (File.Delete wC8 fC8).1.objects = none ∧
      Event.remove (File.Path fC8) ∈ (File.Delete wC8 fC8).2.2.2) ∧
    ((File.Delete wC8b fC8).2.1 = fC8 ∧ (File.Delete wC8b fC8).1 = wC8b) :=
  ⟨(delete_invalidates_on_success wC8 fC8).1 (by decide),
   (delete_invalidates_on_success wC8b fC8).2 { msg := "remove boom" } (by decide)⟩

/-- Claim C9: a fully successful `MoveToLocation` returns the receiver File
itself (no new File identity) with its `location` field reassigned in place
to the target Location and its name unchanged. -/
theorem move_to_location_in_place (w : World) (f : File) (loc : Location)
    (hsucc : (File.MoveToLocation w f loc).2.2.2.1 = none) :
    (File.MoveToLocation w f loc).2.2.1 = Returned.self ∧
    (File.MoveToLocation w f loc).2.1.location = loc ∧
    (File.MoveToLocation w f loc).2.1.name = f.name := by
  have hid := copyWithName_ident w f f.name loc
  rcases hcw : File.copyWithName w f f.name loc with ⟨w1, f1, nf, cerr, ev⟩
  rw [hcw] at hid
  rcases cerr with _ | e
  · have hid2 := Delete_ident w1 f1
    rcases hd : File.Delete w1 f1 with ⟨w2, f2, derr, ev2⟩
    rw [hd] at hid2
    rcases derr with _ | e
    · refine ⟨by simp [File.MoveToLocation, hcw, hd], ?_, ?_⟩
      · simp [File.MoveToLocation, hcw, hd]
      · simp only [File.MoveToLocation, hcw, hd]
        exact hid2.1.trans hid.1
    · simp [File.MoveToLocation, hcw, hd] at hsucc
  · simp [File.MoveToLocation, hcw] at hsucc

/-- Witness for C9: a concrete fully-successful move returns the receiver
with location reassigned to the target and name unchanged. -/
theorem move_to_location_in_place_witness :
    (File.MoveToLocation wC9 fC9 locC9).2.2.2.1 = none ∧
    ((File.MoveToLocation wC9 fC9 locC9).2.2.1 = Returned.self ∧
      (File.MoveToLocation wC9 fC9 locC9).2.1.location = locC9 ∧
      (File.MoveToLocation wC9 fC9 locC9).2.1.name = fC9.name) :=
  ⟨by decide, move_to_location_in_place wC9 fC9 locC9 (by decide)⟩

/-- Claim C10: on the local-disk adapter, `Read` on a nonexistent file
returns an error and creates nothing, while `Write` and `Seek` lazily create
the file (and issue the mkdir-all call for missing parent directories) on
first use. -/
theorem read_write_asymmetry (w : World) (f : File) (cap : Nat) (bs : List Nat)
    (hnf : lookupP (File.Path f) w.objects = none)
    (hsf : lookupP (File.Path f) w.statFail = none)
    (hmk : lookupP (Location.Path f.location) w.mkdirFail = none)
    (hop : lookupP (File.Path f) w.openFail = none)
    (hfile : f.file = none) :
    ((File.Read w f cap).2.2.1 =
        .error { msg := "failed to read. File does not exist" } ∧
      (File.Read w f cap).1 = w) ∧
    (lookupP (File.Path f) (File.Write w f bs).1.objects = some (writeAt [] 0 bs) ∧
      Event.mkdirAll (Location.Path f.location) ∈ (File.Write w f bs).2.2.2) ∧
    (lookupP (File.Path f) (File.Seek w f 0 0).1.objects = some [] ∧
      Event.mkdirAll (Location.Path f.location) ∈ (File.Seek w f 0 0).2.2.2) := by
  have hstat : w.stat (File.Path f) = .notExist := by
    simp [World.stat, hnf, hsf]
  refine ⟨⟨?_, ?_⟩, ⟨?_, ?_⟩, ⟨?_, ?_⟩⟩
  · simp [File.Read, File.Exists, hstat]
  · simp [File.Read, File.Exists, hstat]
  · simp [File.Write, File.openFile, hfile, hmk, hop, hnf, lookupP_setP]
  · simp [File.Write, File.openFile, hfile, hmk, hop, hnf]
  · simp [File.Seek, File.openFile, hfile, hmk, hop, hnf, lookupP_setP]
  · simp [File.Seek, File.openFile, hfile, hmk, hop, hnf]

/-- Witness for C10: on an empty world, reading a missing file errors without
creating it, while writing and seeking create it. -/
theorem read_write_asymmetry_witness :
    ((File.Read wC10 fC10 5).2.2.1 =
        .error { msg := "failed to read. File does not exist" } ∧
      (File.Read wC10 fC10 5).1 = wC10) ∧
    (lookupP (File.Path fC10) (File.Write wC10 fC10 [1, 2]).1.objects =
        some (writeAt [] 0 [1, 2]) ∧
      Event.mkdirAll (Location.Path fC10.location) ∈ (File.Write wC10 fC10 [1, 2]).2.2.2) ∧
    (lookupP (File.Path fC10) (File.Seek wC10 fC10 0 0).1.objects = some [] ∧
      Event.mkdirAll (Location.Path fC10.location) ∈ (File.Seek wC10 fC10 0 0).2.2.2) :=
  read_write_asymmetry wC10 fC10 5 [1, 2] (by decide) (by decide) (by decide) (by decide)
    (by decide)


/-! ### Path-invariant lemmas: Go `Clean` on normalized inputs -/

theorem cleanCore_seg_chars (rooted : Bool) (s : List Char) (hs : ∀ c ∈ s, c ≠ '/') :
    ∀ r' out dd, cleanCore rooted true (s ++ r') out dd =
      cleanCore rooted true r' (s.reverse ++ out) dd := by
  induction s with
  | nil => intro r' out dd; rfl
  | cons c s' ih =>
    intro r' out dd
    have hc : ¬ (c = '/') := hs c (by simp)
    rw [List.cons_append]
    rw [show cleanCore rooted true (c :: (s' ++ r')) out dd
        = cleanCore rooted true (s' ++ r') (c :: out) dd from by
      simp only [cleanCore]
      rw [if_neg hc]]
    rw [ih (fun x hx => hs x (by simp [hx])) r' (c :: out) dd]
    simp

theorem cleanCore_slash_false (rooted : Bool) (t out : List Char) (dd : Nat) :
    cleanCore rooted false ('/' :: t) out dd = cleanCore rooted false t out dd := by
  cases t with
  | nil => simp [cleanCore]
  | cons x xs => simp [cleanCore]

theorem cleanCore_false_default (rooted : Bool) (c : Char) (rest out : List Char) (dd : Nat)
    (hc : ¬ c = '/')
    (h1 : ¬(c = '.' ∧ (rest = [] ∨ rest.head? = some '/')))
    (h2 : ¬(c = '.' ∧ rest.head? = some '.' ∧ (rest.tail = [] ∨ rest.tail.head? = some '/'))) :
    cleanCore rooted false (c :: rest) out dd =
      cleanCore rooted true rest
        (c :: (if rooted then (if out.length ≠ 1 then '/' :: out else out)
          else (if out.length ≠ 0 then '/' :: out else out))) dd := by
  cases rest with
  | nil =>
    have hcd : ¬ c = '.' := fun h => h1 ⟨h, Or.inl rfl⟩
    simp [cleanCore, hc, hcd]
  | cons x xs =>
    simp only [cleanCore]
    rw [if_neg hc, if_neg h1, if_neg h2]

theorem cleanCore_slash_true (rooted : Bool) (t out : List Char) (dd : Nat) :
    cleanCore rooted true ('/' :: t) out dd = cleanCore rooted false t out dd := by
  simp [cleanCore]

theorem cleanCore_seg_step (s : List Char) (hs : validSeg s) (r' out : List Char) (dd : Nat) :
    cleanCore true false (s ++ r') out dd =
      cleanCore true true r' (s.reverse ++ sepOut out) dd := by
  obtain ⟨hne, hslash, hd1, hd2⟩ := hs
  rcases s with _ | ⟨c, s'⟩
  · exact absurd rfl hne
  have hc : ¬ (c = '/') := hslash c (by simp)
  have hcond1 : ¬ (c = '.' ∧ ((s' ++ r') = [] ∨ (s' ++ r').head? = some '/')) := by
    rintro ⟨rfl, hor⟩
    rcases s' with _ | ⟨c2, s''⟩
    · exact hd1 rfl
    · have hc2 : ¬ (c2 = '/') := hslash c2 (by simp)
      rcases hor with h | h
      · simp at h
      · simp at h
        exact hc2 h
  have hcond2 : ¬ (c = '.' ∧ (s' ++ r').head? = some '.' ∧
      ((s' ++ r').tail = [] ∨ (s' ++ r').tail.head? = some '/')) := by
    rintro ⟨rfl, hh, hor⟩
    rcases s' with _ | ⟨c2, s''⟩
    · exact hd1 rfl
    · simp at hh
      subst hh
      rcases s'' with _ | ⟨c3, s'''⟩
      · exact hd2 rfl
      · have hc3 : ¬ (c3 = '/') := hslash c3 (by simp)
        rcases hor with h | h
        · simp at h
        · simp at h
          exact hc3 h
  rw [List.cons_append]
  rw [show cleanCore true false (c :: (s' ++ r')) out dd
      = cleanCore true true (s' ++ r') (c :: sepOut out) dd from by
    rw [cleanCore_false_default true c (s' ++ r') out dd hc hcond1 hcond2, if_pos rfl]
    rfl]
  rw [cleanCore_seg_chars true s' (fun x hx => hslash x (by simp [hx])) r' (c :: sepOut out) dd]
  simp

theorem cleanCore_segs_loop (segs : List (List Char)) (hv : ∀ s ∈ segs, validSeg s) :
    ∀ t acc dd, cleanCore true false (segsFlat segs ++ t) acc dd =
      cleanCore true false t (outAcc segs acc) dd := by
  induction segs with
  | nil => intro t acc dd; rfl
  | cons s rest ih =>
    intro t acc dd
    have h1 : segsFlat (s :: rest) ++ t = s ++ ('/' :: (segsFlat rest ++ t)) := by
      simp [segsFlat]
    rw [h1, cleanCore_seg_step s (hv s (by simp)) _ acc dd, cleanCore_slash_true,
      ih (fun x hx => hv x (by simp [hx])) t (s.reverse ++ sepOut acc) dd]
    rfl

theorem cleanCore_name_step (n : List Char) (hn : validSeg n) (out : List Char) (dd : Nat) :
    cleanCore true false n out dd = n.reverse ++ sepOut out := by
  have h := cleanCore_seg_step n hn [] out dd
  simpa using h

theorem outAcc_eq (segs : List (List Char)) :
    ∀ acc, 2 ≤ acc.length → outAcc segs acc = (slashFlat segs).reverse ++ acc := by
  induction segs with
  | nil => intro acc h; simp [outAcc, slashFlat]
  | cons s rest ih =>
    intro acc h
    have hsep : sepOut acc = '/' :: acc := by
      unfold sepOut
      rw [if_pos (by omega)]
    rw [show outAcc (s :: rest) acc = outAcc rest (s.reverse ++ sepOut acc) from rfl, hsep]
    rw [ih (s.reverse ++ '/' :: acc) (by simp; omega)]
    simp [slashFlat]

theorem slashFlat_shift (segs : List (List Char)) :
    slashFlat segs ++ ['/'] = '/' :: segsFlat segs := by
  induction segs with
  | nil => rfl
  | cons s rest ih =>
    show ('/' :: (s ++ slashFlat rest)) ++ ['/'] = '/' :: (s ++ '/' :: segsFlat rest)
    simp only [List.cons_append, List.append_assoc, ih]

theorem sepOut_outAcc_rev (segs : List (List Char)) (hv : ∀ s ∈ segs, s ≠ []) :
    (sepOut (outAcc segs ['/'])).reverse = '/' :: segsFlat segs := by
  rcases segs with _ | ⟨s, rest⟩
  · simp [outAcc, sepOut, segsFlat]
  · have hs : s ≠ [] := hv s (by simp)
    have hsep1 : sepOut ['/'] = ['/'] := by simp [sepOut]
    have hlen : 1 ≤ s.length := by
      rcases s with _ | ⟨a, t⟩
      · exact absurd rfl hs
      · simp
    have h2 : 2 ≤ (s.reverse ++ ['/']).length := by simp; omega
    rw [show outAcc (s :: rest) ['/'] = outAcc rest (s.reverse ++ sepOut ['/']) from rfl,
      hsep1, outAcc_eq rest _ h2]
    have hlen2 : ((slashFlat rest).reverse ++ (s.reverse ++ ['/'])).length ≠ 1 := by
      simp; omega
    rw [show sepOut ((slashFlat rest).reverse ++ (s.reverse ++ ['/']))
        = '/' :: ((slashFlat rest).reverse ++ (s.reverse ++ ['/'])) from by
      unfold sepOut; rw [if_pos hlen2]]
    simp [segsFlat, List.reverse_append]
    exact slashFlat_shift rest

theorem goJoin_normalized (segs : List (List Char)) (n : List Char)
    (hv : ∀ s ∈ segs, validSeg s) (hn : validSeg n) :
    goJoin (dirOfSegs segs) n = dirOfSegs segs ++ n := by
  have hne : dirOfSegs segs ≠ [] := by simp [dirOfSegs]
  rw [goJoin, if_pos hne]
  have hp : dirOfSegs segs ++ '/' :: n = '/' :: (segsFlat segs ++ '/' :: n) := by
    simp [dirOfSegs]
  rw [hp]
  have houtrev : cleanCore true false ('/' :: (segsFlat segs ++ '/' :: n)) ['/'] 1
      = n.reverse ++ sepOut (outAcc segs ['/']) := by
    rw [cleanCore_slash_false, cleanCore_segs_loop segs hv ('/' :: n) ['/'] 1,
      cleanCore_slash_false, cleanCore_name_step n hn _ 1]
  have hnn : n.reverse ++ sepOut (outAcc segs ['/']) ≠ [] := by
    rcases n with _ | ⟨a, t⟩
    · exact absurd rfl hn.1
    · simp
  rw [show goClean ('/' :: (segsFlat segs ++ '/' :: n))
      = (n.reverse ++ sepOut (outAcc segs ['/'])).reverse from by
    simp [goClean, houtrev, hnn]]
  rw [List.reverse_append, List.reverse_reverse,
    sepOut_outAcc_rev segs (fun s hsm => (hv s hsm).1)]
  rfl

theorem chain_of_all (s : List Char) (h : ∀ c ∈ s, c ≠ '/') :
    List.Chain' (fun a b => ¬(a = '/' ∧ b = '/')) s := by
  induction s with
  | nil => simp
  | cons a t ih =>
    rcases t with _ | ⟨b, t'⟩
    · simp
    · rw [List.chain'_cons]
      refine ⟨?_, ih (fun c hc => h c (by simp [hc]))⟩
      rintro ⟨ha, hb⟩
      exact h a (by simp) ha

theorem all_ne_of_getLast (s : List Char) (h : ∀ c ∈ s, c ≠ '/') :
    ∀ x, s.getLast? = some x → ¬ x = '/' := by
  intro x hx
  rcases s with _ | ⟨a, t⟩
  · cases hx
  · rw [List.getLast?_eq_getLast (a :: t) (by simp)] at hx
    have hx2 := Option.some.inj hx
    intro hcontra
    exact h x (hx2 ▸ List.getLast_mem (by simp)) hcontra

theorem segsFlat_chain (segs : List (List Char)) (hv : ∀ s ∈ segs, validSeg s) :
    List.Chain' (fun a b => ¬(a = '/' ∧ b = '/')) (segsFlat segs) ∧
    (∀ y, (segsFlat segs).head? = some y → ¬ y = '/') := by
  induction segs with
  | nil =>
    constructor
    · simp [segsFlat]
    · intro y hy
      simp [segsFlat] at hy
  | cons s rest ih =>
    have hvs := hv s (by simp)
    have ihh := ih (fun x hx => hv x (by simp [hx]))
    constructor
    · rw [show segsFlat (s :: rest) = s ++ '/' :: segsFlat rest from rfl]
      rw [List.chain'_append]
      refine ⟨chain_of_all s hvs.2.1, ?_, ?_⟩
      · rw [List.chain'_cons']
        refine ⟨?_, ihh.1⟩
        intro y hy
        rintro ⟨h1, h2⟩
        exact ihh.2 y (Option.mem_def.mp hy) h2
      · intro x hx y hy
        rintro ⟨hx1, hy1⟩
        exact all_ne_of_getLast s hvs.2.1 x (Option.mem_def.mp hx) hx1
    · intro y hy
      rcases s with _ | ⟨c, s'⟩
      · exact absurd rfl hvs.1
      · have hyc : c = y := by
          simpa [segsFlat] using hy
        intro hcon
        exact hvs.2.1 c (by simp) (hyc.trans hcon)

theorem noDoubleSep_dir (segs : List (List Char)) (hv : ∀ s ∈ segs, validSeg s) :
    noDoubleSep (dirOfSegs segs) := by
  rw [noDoubleSep, dirOfSegs, List.chain'_cons']
  refine ⟨?_, (segsFlat_chain segs hv).1⟩
  intro y hy
  rintro ⟨h1, h2⟩
  exact (segsFlat_chain segs hv).2 y (Option.mem_def.mp hy) h2

theorem dir_last (segs : List (List Char)) :
    ('/' :: segsFlat segs).getLast? = some '/' := by
  induction segs with
  | nil => rfl
  | cons s rest ih =>
    show (('/' :: s) ++ ('/' :: segsFlat rest)).getLast? = some '/'
    rw [List.getLast?_append_of_ne_nil _ (by simp)]
    exact ih

/-- Claim C7: the path invariant `File.Path() = Location.Path() ++ File.Name()`
holds for every File whose Location path is a normalized absolute directory
path (which always ends in a separator and never doubles separators) and
whose name is a valid base name; the File path never ends in a separator. -/
theorem path_invariant (f : File) (segs : List (List Char))
    (hloc : Location.Path f.location = dirOfSegs segs)
    (hsegs : ∀ s ∈ segs, validSeg s)
    (hname : validSeg f.name) :
    File.Path f = Location.Path f.location ++ f.name ∧
    (Location.Path f.location).getLast? = some '/' ∧
    noDoubleSep (Location.Path f.location) ∧
    (File.Path f).getLast? ≠ some '/' := by
  have hjoin := goJoin_normalized segs f.name hsegs hname
  refine ⟨?_, ?_, ?_, ?_⟩
  · rw [File.Path, hloc, hjoin]
  · rw [hloc]
    exact dir_last segs
  · rw [hloc]
    exact noDoubleSep_dir segs hsegs
  · rw [File.Path, hloc, hjoin]
    rw [show dirOfSegs segs ++ f.name = ('/' :: segsFlat segs) ++ f.name from rfl]
    rw [List.getLast?_append_of_ne_nil _ hname.1]
    intro hcontra
    rw [List.getLast?_eq_getLast f.name hname.1] at hcontra
    exact hname.2.1 _ (List.getLast_mem hname.1) (Option.some.inj hcontra)

/-- Witness for C7: the invariant at a concrete File
(`/some/path/` + `file.txt`). -/
theorem path_invariant_witness :
    File.Path fC7 = Location.Path fC7.location ++ fC7.name ∧
    (Location.Path fC7.location).getLast? = some '/' ∧
    noDoubleSep (Location.Path fC7.location) ∧
    (File.Path fC7).getLast? ≠ some '/' :=
  path_invariant fC7 ["some".data, "path".data] (by decide) (by decide) (by decide)

end Os


